import Mathlib

/-!
Verification of `test` from `src/Blocks/inline_code_1.cpp`.

The program reads an `int` from `cin`, conditionally reads a second one,
adds or subtracts it, and writes the result to `cout`.

Embedding:

* `int` is a 32-bit two's complement integer: values are `Int`s kept in
  `[INT_MIN, INT_MAX]`, and `+=` / `-=` reduce their result with `wrapInt`.
* `cin` is the list of items that formatted extraction will find, one per
  whitespace-delimited piece of text, together with the stream's `failbit`
  and `eofbit`.  `cinExtract` follows `operator>>(int&)` of C++11: a stream
  that is not good, or that is at its end, leaves the variable untouched; text
  that is not a number stores `0`; a number outside the range of `int` stores
  the nearest bound; all three set `failbit`, and no exception is thrown.
* A local declared without initialiser (`int x;`) holds an arbitrary `int`
  until it is assigned; `State.start` takes these values as a parameter.
* `cout` is the text written so far; `log` records the statements executed.
-/

namespace Rooks

/-! ## Machine integers -/

def INT_MIN : Int := -2147483648

def INT_MAX : Int := 2147483647

/-- Membership in the range of `int`. -/
def inRange (v : Int) : Prop := INT_MIN ≤ v ∧ v ≤ INT_MAX

instance (v : Int) : Decidable (inRange v) := by
  unfold inRange; infer_instance

/-- Reduction of a mathematical integer to the `int` congruent to it modulo `2^32`. -/
def wrapInt (v : Int) : Int := (v + 2147483648) % 4294967296 - 2147483648

/-! ## Streams -/

/-- What formatted extraction finds after skipping whitespace. -/
inductive Tok where
  /-- A decimal integer literal, of any magnitude. -/
  | num (v : Int)
  /-- Text that does not start an integer. -/
  | bad
  deriving DecidableEq, Repr

/-- State of `cin`. -/
structure IStream where
  pending : List Tok
  failbit : Bool
  eofbit : Bool
  deriving DecidableEq, Repr

/-- The three locals of `test`. -/
inductive Var where
  | x | y | z
  deriving DecidableEq, Repr

/-- Statements of `test` with an effect, as recorded in the log. -/
inductive Event where
  /-- The statement `cin >> v;`. -/
  | extract (v : Var)
  /-- The statement `x += y;`. -/
  | addAssign
  /-- The statement `x -= z;`. -/
  | subAssign
  /-- The statement `cout << x;`, with the text written. -/
  | insert (text : String)
  deriving DecidableEq, Repr

/-- The process state `test` runs in: both streams, the three locals, and the
log of executed statements. -/
structure State where
  cin : IStream
  cout : String
  log : List Event
  x : Int
  y : Int
  z : Int
  deriving DecidableEq, Repr

/-- A fresh process whose standard input holds `input`, and whose storage for
the uninitialised locals holds the `int`s congruent to `ux`, `uy`, `uz`. -/
def State.start (ux uy uz : Int) (input : List Tok) : State :=
  { cin := { pending := input, failbit := false, eofbit := false }
    cout := ""
    log := []
    x := wrapInt ux
    y := wrapInt uy
    z := wrapInt uz }

def State.get (s : State) : Var → Int
  | Var.x => s.x
  | Var.y => s.y
  | Var.z => s.z

def State.set (s : State) (v : Var) (val : Int) : State :=
  match v with
  | Var.x => { s with x := val }
  | Var.y => { s with y := val }
  | Var.z => { s with z := val }

/-- The extraction `operator>>(int&)` on the stream alone: new stream state and new value of
the variable, whose value before the statement is `old`. -/
def cinExtract (s : IStream) (old : Int) : IStream × Int :=
  if s.failbit || s.eofbit then
    ({ s with failbit := true }, old)
  else
    match s.pending with
    | [] => ({ s with failbit := true, eofbit := true }, old)
    | Tok.bad :: _ => ({ s with failbit := true }, 0)
    | Tok.num v :: rest =>
      if v < INT_MIN then ({ s with pending := rest, failbit := true }, INT_MIN)
      else if INT_MAX < v then ({ s with pending := rest, failbit := true }, INT_MAX)
      else ({ s with pending := rest }, v)

/-- The statement `cin >> v;`. -/
def State.extract (s : State) (v : Var) : State :=
  let r := cinExtract s.cin (s.get v)
  { s.set v r.2 with cin := r.1, log := s.log ++ [Event.extract v] }

/-- The statement `x += y;`. -/
def State.addAssign (s : State) : State :=
  { s with x := wrapInt (s.x + s.y), log := s.log ++ [Event.addAssign] }

/-- The statement `x -= z;`. -/
def State.subAssign (s : State) : State :=
  { s with x := wrapInt (s.x - s.z), log := s.log ++ [Event.subAssign] }

/-- The statement `cout << x;`: the decimal text of `x` and nothing else. -/
def State.insert (s : State) : State :=
  { s with cout := s.cout ++ toString s.x, log := s.log ++ [Event.insert (toString s.x)] }

/-! ## The program -/

/-- The function `test`. -/
def test (s : State) : State :=
  let s := s.extract Var.x
  let s :=
    if s.x < 5 then
      (s.extract Var.y).addAssign
    else if s.x > 5 then
      (s.extract Var.z).subAssign
    else
      s
  s.insert

/-- The function `main`: the exit status and the state the process ends in. -/
def main (ux uy uz : Int) (input : List Tok) : Int × State :=
  let s := test (State.start ux uy uz input)
  (0, s)

/-! ## Observations used in the statements -/

/-- Value of `x` right after the first statement `cin >> x;`. -/
def firstValue (s : State) : Int := (s.extract Var.x).x

/-- Number of items the run took from the input. -/
def consumed (input : List Tok) (s : State) : Nat :=
  input.length - s.cin.pending.length

/-- The same state with `ext` appended to the unread input. -/
def State.feed (s : State) (ext : List Tok) : State :=
  { s with cin := { s.cin with pending := s.cin.pending ++ ext } }

def Event.isExtract : Event → Bool
  | Event.extract _ => true
  | _ => false

def Event.isAssign : Event → Bool
  | Event.addAssign => true
  | Event.subAssign => true
  | _ => false

def Event.isInsert : Event → Bool
  | Event.insert _ => true
  | _ => false

/-! ## Arithmetic of `wrapInt` -/

theorem wrapInt_inRange (v : Int) : inRange (wrapInt v) := by
  unfold inRange wrapInt INT_MIN INT_MAX
  omega

theorem wrapInt_of_inRange (v : Int) (h : inRange v) : wrapInt v = v := by
  unfold inRange INT_MIN INT_MAX at h
  unfold wrapInt
  omega

theorem wrapInt_modEq (v : Int) : wrapInt v ≡ v [ZMOD 4294967296] := by
  unfold wrapInt Int.ModEq
  omega

/-! ## Single statements -/

theorem cinExtract_num (rest : List Tok) (v old : Int) (h : inRange v) :
    cinExtract { pending := Tok.num v :: rest, failbit := false, eofbit := false } old
      = ({ pending := rest, failbit := false, eofbit := false }, v) := by
  unfold inRange at h
  have h1 : ¬ v < INT_MIN := not_lt.mpr h.1
  have h2 : ¬ INT_MAX < v := not_lt.mpr h.2
  simp [cinExtract, h1, h2]

theorem cinExtract_nil (old : Int) :
    cinExtract { pending := [], failbit := false, eofbit := false } old
      = ({ pending := [], failbit := true, eofbit := true }, old) := by
  simp [cinExtract]

theorem cinExtract_bad (rest : List Tok) (old : Int) :
    cinExtract { pending := Tok.bad :: rest, failbit := false, eofbit := false } old
      = ({ pending := Tok.bad :: rest, failbit := true, eofbit := false }, 0) := by
  simp [cinExtract]

/-! ## Complete runs on well-formed input -/

theorem test_start_lt (ux uy uz x0 y : Int) (rest : List Tok)
    (hx : inRange x0) (hy : inRange y) (h : x0 < 5) :
    test (State.start ux uy uz (Tok.num x0 :: Tok.num y :: rest))
      = { cin := { pending := rest, failbit := false, eofbit := false }
          cout := toString (wrapInt (x0 + y))
          log := [Event.extract Var.x, Event.extract Var.y, Event.addAssign,
                  Event.insert (toString (wrapInt (x0 + y)))]
          x := wrapInt (x0 + y)
          y := y
          z := wrapInt uz } := by
  simp [test, State.start, State.extract, State.get, State.set, State.addAssign,
    State.insert, cinExtract_num, hx, hy, h]

theorem test_start_gt (ux uy uz x0 z : Int) (rest : List Tok)
    (hx : inRange x0) (hz : inRange z) (h : x0 > 5) :
    test (State.start ux uy uz (Tok.num x0 :: Tok.num z :: rest))
      = { cin := { pending := rest, failbit := false, eofbit := false }
          cout := toString (wrapInt (x0 - z))
          log := [Event.extract Var.x, Event.extract Var.z, Event.subAssign,
                  Event.insert (toString (wrapInt (x0 - z)))]
          x := wrapInt (x0 - z)
          y := wrapInt uy
          z := z } := by
  have h1 : ¬ x0 < 5 := by omega
  have h2 : 5 < x0 := h
  simp [test, State.start, State.extract, State.get, State.set, State.subAssign,
    State.insert, cinExtract_num, hx, hz, h1, h2]

theorem test_start_eq (ux uy uz : Int) (rest : List Tok) :
    test (State.start ux uy uz (Tok.num 5 :: rest))
      = { cin := { pending := rest, failbit := false, eofbit := false }
          cout := "5"
          log := [Event.extract Var.x, Event.insert "5"]
          x := 5
          y := wrapInt uy
          z := wrapInt uz } := by
  have h5 : inRange 5 := by decide
  simp [test, State.start, State.extract, State.get, State.set,
    State.insert, cinExtract_num, h5]
  decide

/-! ## Complete runs on input that ends early or is malformed -/

theorem test_start_short_lt (ux uy uz x0 : Int) (hx : inRange x0) (h : x0 < 5) :
    test (State.start ux uy uz [Tok.num x0])
      = { cin := { pending := [], failbit := true, eofbit := true }
          cout := toString (wrapInt (x0 + wrapInt uy))
          log := [Event.extract Var.x, Event.extract Var.y, Event.addAssign,
                  Event.insert (toString (wrapInt (x0 + wrapInt uy)))]
          x := wrapInt (x0 + wrapInt uy)
          y := wrapInt uy
          z := wrapInt uz } := by
  simp [test, State.start, State.extract, State.get, State.set, State.addAssign,
    State.insert, cinExtract_num, cinExtract_nil, cinExtract_bad, hx, h]

theorem test_start_short_gt (ux uy uz x0 : Int) (hx : inRange x0) (h : x0 > 5) :
    test (State.start ux uy uz [Tok.num x0])
      = { cin := { pending := [], failbit := true, eofbit := true }
          cout := toString (wrapInt (x0 - wrapInt uz))
          log := [Event.extract Var.x, Event.extract Var.z, Event.subAssign,
                  Event.insert (toString (wrapInt (x0 - wrapInt uz)))]
          x := wrapInt (x0 - wrapInt uz)
          y := wrapInt uy
          z := wrapInt uz } := by
  have h1 : ¬ x0 < 5 := by omega
  have h2 : 5 < x0 := h
  simp [test, State.start, State.extract, State.get, State.set, State.subAssign,
    State.insert, cinExtract_num, cinExtract_nil, cinExtract_bad, hx, h1, h2]

theorem test_start_bad_lt (ux uy uz x0 : Int) (rest : List Tok)
    (hx : inRange x0) (h : x0 < 5) :
    test (State.start ux uy uz (Tok.num x0 :: Tok.bad :: rest))
      = { cin := { pending := Tok.bad :: rest, failbit := true, eofbit := false }
          cout := toString x0
          log := [Event.extract Var.x, Event.extract Var.y, Event.addAssign,
                  Event.insert (toString x0)]
          x := x0
          y := 0
          z := wrapInt uz } := by
  simp [test, State.start, State.extract, State.get, State.set, State.addAssign,
    State.insert, cinExtract_num, cinExtract_nil, cinExtract_bad, hx, h, wrapInt_of_inRange x0 hx]

theorem test_start_bad_gt (ux uy uz x0 : Int) (rest : List Tok)
    (hx : inRange x0) (h : x0 > 5) :
    test (State.start ux uy uz (Tok.num x0 :: Tok.bad :: rest))
      = { cin := { pending := Tok.bad :: rest, failbit := true, eofbit := false }
          cout := toString x0
          log := [Event.extract Var.x, Event.extract Var.z, Event.subAssign,
                  Event.insert (toString x0)]
          x := x0
          y := wrapInt uy
          z := 0 } := by
  have h1 : ¬ x0 < 5 := by omega
  have h2 : 5 < x0 := h
  simp [test, State.start, State.extract, State.get, State.set, State.subAssign,
    State.insert, cinExtract_num, cinExtract_nil, cinExtract_bad, hx, h1, h2, wrapInt_of_inRange x0 hx]

/-! ## Complete runs on arbitrary input -/

theorem test_cases (s : State) :
    (firstValue s < 5 ∧ test s = (((s.extract Var.x).extract Var.y).addAssign).insert) ∨
    (firstValue s > 5 ∧ test s = (((s.extract Var.x).extract Var.z).subAssign).insert) ∨
    (firstValue s = 5 ∧ test s = (s.extract Var.x).insert) := by
  unfold firstValue test
  rcases lt_trichotomy (s.extract Var.x).x 5 with h | h | h
  · left
    exact ⟨h, by simp [h]⟩
  · right; right
    exact ⟨h, by simp [h]⟩
  · right; left
    have h1 : ¬ (s.extract Var.x).x < 5 := by omega
    exact ⟨h, by simp [h, h1]⟩

theorem extract_log (s : State) (v : Var) :
    (s.extract v).log = s.log ++ [Event.extract v] := by
  cases v <;> rfl

theorem extract_cout (s : State) (v : Var) : (s.extract v).cout = s.cout := by
  cases v <;> rfl

theorem start_log (ux uy uz : Int) (input : List Tok) :
    (State.start ux uy uz input).log = [] := rfl

theorem start_cout (ux uy uz : Int) (input : List Tok) :
    (State.start ux uy uz input).cout = "" := rfl

theorem firstValue_start_num (ux uy uz x0 : Int) (rest : List Tok) (hx : inRange x0) :
    firstValue (State.start ux uy uz (Tok.num x0 :: rest)) = x0 := by
  simp [firstValue, State.start, State.extract, State.get, State.set, cinExtract_num, hx]

/-- Shape of the log of a complete run, by the value of `x` after the first
extraction. -/
theorem test_start_log (ux uy uz : Int) (input : List Tok) :
    (firstValue (State.start ux uy uz input) < 5 ∧
      (test (State.start ux uy uz input)).log
        = [Event.extract Var.x, Event.extract Var.y, Event.addAssign,
            Event.insert (toString (test (State.start ux uy uz input)).x)]) ∨
    (firstValue (State.start ux uy uz input) > 5 ∧
      (test (State.start ux uy uz input)).log
        = [Event.extract Var.x, Event.extract Var.z, Event.subAssign,
            Event.insert (toString (test (State.start ux uy uz input)).x)]) ∨
    (firstValue (State.start ux uy uz input) = 5 ∧
      (test (State.start ux uy uz input)).log
        = [Event.extract Var.x, Event.insert (toString (test (State.start ux uy uz input)).x)]) := by
  rcases test_cases (State.start ux uy uz input) with ⟨h, e⟩ | ⟨h, e⟩ | ⟨h, e⟩
  · left
    refine ⟨h, ?_⟩
    rw [e]
    simp [State.insert, State.addAssign, extract_log, start_log]
  · right; left
    refine ⟨h, ?_⟩
    rw [e]
    simp [State.insert, State.subAssign, extract_log, start_log]
  · right; right
    refine ⟨h, ?_⟩
    rw [e]
    simp [State.insert, extract_log, start_log]

theorem test_start_cout (ux uy uz : Int) (input : List Tok) :
    (test (State.start ux uy uz input)).cout
      = toString (test (State.start ux uy uz input)).x := by
  rcases test_cases (State.start ux uy uz input) with ⟨_, e⟩ | ⟨_, e⟩ | ⟨_, e⟩ <;>
    rw [e] <;>
    simp [State.insert, State.addAssign, State.subAssign, extract_cout, start_cout]

theorem test_start_x_inRange (ux uy uz : Int) (input : List Tok) :
    inRange (test (State.start ux uy uz input)).x := by
  rcases test_cases (State.start ux uy uz input) with ⟨_, e⟩ | ⟨_, e⟩ | ⟨h, e⟩
  · rw [e]
    exact wrapInt_inRange _
  · rw [e]
    exact wrapInt_inRange _
  · rw [e]
    have : ((State.start ux uy uz input).extract Var.x).insert.x = 5 := h
    rw [this]
    decide

/-! ## The addition branch -/

/-- C1 fails as stated: on the in-range input `-2147483648 -1`, whose first
value is below 5, the program prints `2147483647`, which is not the text of the
sum `-2147483649`. -/
theorem addition_overflow_counterexample :
    inRange (-2147483648) ∧ inRange (-1) ∧ (-2147483648 : Int) < 5 ∧
    (main 0 0 0 [Tok.num (-2147483648), Tok.num (-1)]).2.cout = "2147483647" ∧
    (main 0 0 0 [Tok.num (-2147483648), Tok.num (-1)]).2.cout
      ≠ toString ((-2147483648 : Int) + (-1)) := by
  decide

/-- C1, amended: for in-range inputs `x0 < 5` and `y` whose sum `x0 + y` is
itself in the range of `int`, the program prints `x0 + y`, performs exactly two
extractions, and takes exactly the two integers from the input, leaving the
rest unread and the stream good. -/
theorem lt_five_prints_sum (ux uy uz x0 y : Int) (rest : List Tok)
    (hx : inRange x0) (hy : inRange y) (hs : inRange (x0 + y)) (h : x0 < 5) :
    (main ux uy uz (Tok.num x0 :: Tok.num y :: rest)).2.cout = toString (x0 + y) ∧
    (main ux uy uz (Tok.num x0 :: Tok.num y :: rest)).2.cin.pending = rest ∧
    consumed (Tok.num x0 :: Tok.num y :: rest)
      (main ux uy uz (Tok.num x0 :: Tok.num y :: rest)).2 = 2 ∧
    (main ux uy uz (Tok.num x0 :: Tok.num y :: rest)).2.log.countP Event.isExtract = 2 ∧
    (main ux uy uz (Tok.num x0 :: Tok.num y :: rest)).2.cin.failbit = false := by
  simp only [main, test_start_lt ux uy uz x0 y rest hx hy h, wrapInt_of_inRange _ hs]
  simp [consumed, Event.isExtract]
  omega

/-- Instances of C1 (amended) on the inputs `3 4` and `4 -1`: the outputs are
`7` and `3`. -/
theorem lt_five_prints_sum_witness :
    (inRange 3 ∧ inRange 4 ∧ inRange (3 + 4) ∧ (3 : Int) < 5) ∧
    (inRange 4 ∧ inRange (-1) ∧ inRange (4 + -1) ∧ (4 : Int) < 5) ∧
    ((main 0 0 0 [Tok.num 3, Tok.num 4]).2.cout = "7" ∧
      consumed [Tok.num 3, Tok.num 4] (main 0 0 0 [Tok.num 3, Tok.num 4]).2 = 2) ∧
    ((main 0 0 0 [Tok.num 4, Tok.num (-1)]).2.cout = "3" ∧
      consumed [Tok.num 4, Tok.num (-1)] (main 0 0 0 [Tok.num 4, Tok.num (-1)]).2 = 2) :=
  have a := lt_five_prints_sum 0 0 0 3 4 [] (by decide) (by decide) (by decide) (by decide)
  have b := lt_five_prints_sum 0 0 0 4 (-1) [] (by decide) (by decide) (by decide) (by decide)
  ⟨by decide, by decide, ⟨a.1, a.2.2.1⟩, ⟨b.1, b.2.2.1⟩⟩

/-! ## The subtraction branch -/

/-- C2 fails as stated: on the in-range input `2147483647 -1`, whose first
value is above 5, the program prints `-2147483648`, which is not the text of
the difference `2147483648`. -/
theorem subtraction_overflow_counterexample :
    inRange 2147483647 ∧ inRange (-1) ∧ (2147483647 : Int) > 5 ∧
    (main 0 0 0 [Tok.num 2147483647, Tok.num (-1)]).2.cout = "-2147483648" ∧
    (main 0 0 0 [Tok.num 2147483647, Tok.num (-1)]).2.cout
      ≠ toString ((2147483647 : Int) - (-1)) := by
  decide

/-- C2, amended: for in-range inputs `x0 > 5` and `z` whose difference
`x0 - z` is itself in the range of `int`, the program prints `x0 - z`, performs
exactly two extractions, and takes exactly the two integers from the input,
leaving the rest unread and the stream good. -/
theorem gt_five_prints_difference (ux uy uz x0 z : Int) (rest : List Tok)
    (hx : inRange x0) (hz : inRange z) (hd : inRange (x0 - z)) (h : x0 > 5) :
    (main ux uy uz (Tok.num x0 :: Tok.num z :: rest)).2.cout = toString (x0 - z) ∧
    (main ux uy uz (Tok.num x0 :: Tok.num z :: rest)).2.cin.pending = rest ∧
    consumed (Tok.num x0 :: Tok.num z :: rest)
      (main ux uy uz (Tok.num x0 :: Tok.num z :: rest)).2 = 2 ∧
    (main ux uy uz (Tok.num x0 :: Tok.num z :: rest)).2.log.countP Event.isExtract = 2 ∧
    (main ux uy uz (Tok.num x0 :: Tok.num z :: rest)).2.cin.failbit = false := by
  simp only [main, test_start_gt ux uy uz x0 z rest hx hz h, wrapInt_of_inRange _ hd]
  simp [consumed, Event.isExtract]
  omega

/-- Instance of C2 (amended) on the input `10 2`: the output is `8`. -/
theorem gt_five_prints_difference_witness :
    inRange 10 ∧ inRange 2 ∧ inRange (10 - 2) ∧ (10 : Int) > 5 ∧
    (main 0 0 0 [Tok.num 10, Tok.num 2]).2.cout = "8" ∧
    consumed [Tok.num 10, Tok.num 2] (main 0 0 0 [Tok.num 10, Tok.num 2]).2 = 2 :=
  have a := gt_five_prints_difference 0 0 0 10 2 [] (by decide) (by decide) (by decide)
    (by decide)
  ⟨by decide, by decide, by decide, by decide, a.1, a.2.2.1⟩

/-! ## The case `x == 5` -/

/-- C3: when the first integer of the input is 5, the program prints `5`,
performs the single extraction `cin >> x` and no other, and takes exactly one
integer from the input, whatever follows it; in particular on the input `5`
alone. -/
theorem eq_five_prints_five (ux uy uz : Int) (rest : List Tok) :
    (main ux uy uz (Tok.num 5 :: rest)).2.cout = "5" ∧
    (main ux uy uz (Tok.num 5 :: rest)).2.log = [Event.extract Var.x, Event.insert "5"] ∧
    (main ux uy uz (Tok.num 5 :: rest)).2.cin.pending = rest ∧
    consumed (Tok.num 5 :: rest) (main ux uy uz (Tok.num 5 :: rest)).2 = 1 ∧
    (main ux uy uz (Tok.num 5 :: rest)).2.cin.failbit = false ∧
    (main ux uy uz [Tok.num 5]).2.cout = "5" ∧
    consumed [Tok.num 5] (main ux uy uz [Tok.num 5]).2 = 1 := by
  simp only [main, test_start_eq]
  simp [consumed]

/-! ## Input beyond what the run consumes -/

theorem cinExtract_eofbit_mono (s : IStream) (old : Int)
    (h : (cinExtract s old).1.eofbit = false) : s.eofbit = false := by
  unfold cinExtract at h
  split at h
  · simpa using h
  · split at h
    · simp at h
    · simpa using h
    · split at h
      · simpa using h
      · split at h <;> simpa using h

theorem cinExtract_append (s : IStream) (old : Int) (ext : List Tok)
    (h : (cinExtract s old).1.eofbit = false) :
    cinExtract { s with pending := s.pending ++ ext } old
      = ({ (cinExtract s old).1 with pending := (cinExtract s old).1.pending ++ ext },
          (cinExtract s old).2) := by
  obtain ⟨p, f, e⟩ := s
  unfold cinExtract at h ⊢
  by_cases c : (f || e) = true
  · simp [c]
  · simp only [c, if_false] at h ⊢
    cases p with
    | nil => simp at h
    | cons t rest =>
      cases t with
      | bad => simp
      | num v =>
        by_cases c1 : v < INT_MIN
        · simp [c1]
        · by_cases c2 : INT_MAX < v
          · simp [c1, c2]
          · simp [c1, c2]

theorem extract_eofbit_mono (s : State) (v : Var)
    (h : (s.extract v).cin.eofbit = false) : s.cin.eofbit = false := by
  cases v <;> exact cinExtract_eofbit_mono _ _ h

theorem extract_feed (s : State) (v : Var) (ext : List Tok)
    (h : (s.extract v).cin.eofbit = false) :
    (s.feed ext).extract v = (s.extract v).feed ext := by
  have key := cinExtract_append s.cin (s.get v) ext (by cases v <;> exact h)
  cases v <;>
    simp only [State.extract, State.feed, State.get, State.set] at key ⊢ <;>
    rw [key]

theorem test_feed (s : State) (ext : List Tok) (h : (test s).cin.eofbit = false) :
    test (s.feed ext) = (test s).feed ext := by
  rcases test_cases s with ⟨c, e⟩ | ⟨c, e⟩ | ⟨c, e⟩
  · rw [e] at h ⊢
    have h2 : ((s.extract Var.x).extract Var.y).cin.eofbit = false := h
    have h1 := extract_eofbit_mono _ _ h2
    have c' : ((s.extract Var.x).feed ext).x < 5 := c
    unfold test
    simp only [extract_feed s Var.x ext h1, c', if_true,
      extract_feed (s.extract Var.x) Var.y ext h2]
    rfl
  · rw [e] at h ⊢
    have h2 : ((s.extract Var.x).extract Var.z).cin.eofbit = false := h
    have h1 := extract_eofbit_mono _ _ h2
    have c1 : ¬ ((s.extract Var.x).feed ext).x < 5 := by
      have : firstValue s > 5 := c
      unfold firstValue at this
      show ¬ (s.extract Var.x).x < 5
      omega
    have c2 : ((s.extract Var.x).feed ext).x > 5 := c
    unfold test
    simp only [extract_feed s Var.x ext h1, c1, c2, if_true, if_false,
      extract_feed (s.extract Var.x) Var.z ext h2]
    rfl
  · rw [e] at h ⊢
    have h1 : (s.extract Var.x).cin.eofbit = false := h
    have c0 : ((s.extract Var.x).feed ext).x = 5 := c
    unfold test
    simp only [extract_feed s Var.x ext h1, c0]
    rfl

theorem cinExtract_pending_le (s : IStream) (old : Int) :
    (cinExtract s old).1.pending.length ≤ s.pending.length := by
  obtain ⟨p, f, e⟩ := s
  unfold cinExtract
  by_cases c : (f || e) = true
  · simp [c]
  · simp only [c, if_false]
    cases p with
    | nil => simp
    | cons t rest =>
      cases t with
      | bad => simp
      | num v =>
        by_cases c1 : v < INT_MIN
        · simp [c1]
        · by_cases c2 : INT_MAX < v
          · simp [c1, c2]
          · simp [c1, c2]

theorem extract_pending_le (s : State) (v : Var) :
    (s.extract v).cin.pending.length ≤ s.cin.pending.length := by
  cases v <;> exact cinExtract_pending_le _ _

theorem test_pending_le (s : State) :
    (test s).cin.pending.length ≤ s.cin.pending.length := by
  have a := extract_pending_le s Var.x
  have b := extract_pending_le (s.extract Var.x) Var.y
  have c := extract_pending_le (s.extract Var.x) Var.z
  rcases test_cases s with ⟨_, e⟩ | ⟨_, e⟩ | ⟨_, e⟩ <;> rw [e]
  · exact le_trans b a
  · exact le_trans c a
  · exact a

theorem start_append (ux uy uz : Int) (input ext : List Tok) :
    State.start ux uy uz (input ++ ext) = (State.start ux uy uz input).feed ext := rfl

/-- C4: input beyond what the run consumes has no effect.  For every input on
which the run does not hit the end of the stream, appending `ext` changes
neither the text printed, nor the number of items consumed, nor the statements
executed, nor the stream's failure flag, nor the exit status.  In particular
after a leading `5` everything that follows is left unread and the output is
`5`; and after two in-range integers `x0 ≠ 5` and `w` the output and the count
of two consumed integers are those of the input `x0 w` alone. -/
theorem unread_input_is_ignored (ux uy uz : Int) (ext : List Tok) :
    (∀ input, (main ux uy uz input).2.cin.eofbit = false →
      (main ux uy uz (input ++ ext)).2.cout = (main ux uy uz input).2.cout ∧
      consumed (input ++ ext) (main ux uy uz (input ++ ext)).2
        = consumed input (main ux uy uz input).2 ∧
      (main ux uy uz (input ++ ext)).2.log = (main ux uy uz input).2.log ∧
      (main ux uy uz (input ++ ext)).2.cin.failbit = (main ux uy uz input).2.cin.failbit ∧
      (main ux uy uz (input ++ ext)).1 = (main ux uy uz input).1) ∧
    ((main ux uy uz (Tok.num 5 :: ext)).2.cout = "5" ∧
      (main ux uy uz (Tok.num 5 :: ext)).2.cin.pending = ext ∧
      consumed (Tok.num 5 :: ext) (main ux uy uz (Tok.num 5 :: ext)).2 = 1 ∧
      (main ux uy uz (Tok.num 5 :: ext)).2.cin.failbit = false) ∧
    (∀ x0 w, inRange x0 → inRange w → x0 ≠ 5 →
      (main ux uy uz (Tok.num x0 :: Tok.num w :: ext)).2.cout
        = (main ux uy uz [Tok.num x0, Tok.num w]).2.cout ∧
      (main ux uy uz (Tok.num x0 :: Tok.num w :: ext)).2.cin.pending = ext ∧
      consumed (Tok.num x0 :: Tok.num w :: ext)
        (main ux uy uz (Tok.num x0 :: Tok.num w :: ext)).2 = 2 ∧
      consumed [Tok.num x0, Tok.num w] (main ux uy uz [Tok.num x0, Tok.num w]).2 = 2 ∧
      (main ux uy uz (Tok.num x0 :: Tok.num w :: ext)).2.cin.failbit = false) := by
  refine ⟨?_, ?_, ?_⟩
  · intro input h
    have e : test (State.start ux uy uz (input ++ ext))
        = (test (State.start ux uy uz input)).feed ext := by
      rw [start_append]
      exact test_feed _ ext h
    have hl := test_pending_le (State.start ux uy uz input)
    refine ⟨?_, ?_, ?_, ?_, rfl⟩
    · show (test (State.start ux uy uz (input ++ ext))).cout = _
      rw [e]
      rfl
    · show consumed (input ++ ext) (test (State.start ux uy uz (input ++ ext))) = _
      rw [e]
      show (input ++ ext).length
          - ((test (State.start ux uy uz input)).cin.pending ++ ext).length
        = input.length - (test (State.start ux uy uz input)).cin.pending.length
      have hl' : (test (State.start ux uy uz input)).cin.pending.length ≤ input.length := hl
      simp only [List.length_append]
      omega
    · show (test (State.start ux uy uz (input ++ ext))).log = _
      rw [e]
      rfl
    · show (test (State.start ux uy uz (input ++ ext))).cin.failbit = _
      rw [e]
      rfl
  · simp only [main, test_start_eq]
    simp [consumed]
  · intro x0 w hx hw hne
    rcases lt_or_gt_of_ne hne with h | h
    · simp only [main, test_start_lt ux uy uz x0 w _ hx hw h]
      simp [consumed]
      omega
    · simp only [main, test_start_gt ux uy uz x0 w _ hx hw h]
      simp [consumed]
      omega

/-- Instance of C4 on the input `5 99`: the output is `5`, as on the input `5`
alone, and `99` stays in the stream. -/
theorem unread_input_is_ignored_witness :
    (main 0 0 0 [Tok.num 5]).2.cin.eofbit = false ∧
    (main 0 0 0 [Tok.num 5, Tok.num 99]).2.cout = (main 0 0 0 [Tok.num 5]).2.cout ∧
    (main 0 0 0 [Tok.num 5, Tok.num 99]).2.cout = "5" ∧
    (main 0 0 0 [Tok.num 5, Tok.num 99]).2.cin.pending = [Tok.num 99] ∧
    consumed [Tok.num 5, Tok.num 99] (main 0 0 0 [Tok.num 5, Tok.num 99]).2 = 1 :=
  have a := unread_input_is_ignored 0 0 0 [Tok.num 99]
  ⟨by decide, (a.1 [Tok.num 5] (by decide)).1, a.2.1.1, a.2.1.2.1, a.2.1.2.2.1⟩

/-! ## The comment on the output statement -/

/-- C6: on every run exactly one of the three paths executes, and the path is
fixed by the value `x0` of `x` right after `cin >> x` (the first integer of the
input, when it is in range): the run executes `cin >> y; x += y` exactly when
`x0 < 5`, `cin >> z; x -= z` exactly when `x0 > 5`, and no assignment exactly
when `x0 = 5`.  The log has one of three shapes accordingly, so `x` is assigned
at most once and at most two extractions happen, whatever `x` has become. -/
theorem one_path_decided_by_first_value (ux uy uz : Int) (input : List Tok) :
    (Event.addAssign ∈ (main ux uy uz input).2.log
      ↔ firstValue (State.start ux uy uz input) < 5) ∧
    (Event.subAssign ∈ (main ux uy uz input).2.log
      ↔ firstValue (State.start ux uy uz input) > 5) ∧
    ((main ux uy uz input).2.log.countP Event.isAssign = 0
      ↔ firstValue (State.start ux uy uz input) = 5) ∧
    (firstValue (State.start ux uy uz input) < 5 →
      (main ux uy uz input).2.log
        = [Event.extract Var.x, Event.extract Var.y, Event.addAssign,
            Event.insert (toString (main ux uy uz input).2.x)]) ∧
    (firstValue (State.start ux uy uz input) > 5 →
      (main ux uy uz input).2.log
        = [Event.extract Var.x, Event.extract Var.z, Event.subAssign,
            Event.insert (toString (main ux uy uz input).2.x)]) ∧
    (firstValue (State.start ux uy uz input) = 5 →
      (main ux uy uz input).2.log
        = [Event.extract Var.x, Event.insert (toString (main ux uy uz input).2.x)]) ∧
    (main ux uy uz input).2.log.countP Event.isAssign ≤ 1 ∧
    (main ux uy uz input).2.log.countP Event.isExtract ≤ 2 ∧
    (∀ x0 rest, input = Tok.num x0 :: rest → inRange x0 →
      firstValue (State.start ux uy uz input) = x0) := by
  have hm : (main ux uy uz input).2 = test (State.start ux uy uz input) := rfl
  rw [hm]
  have last : ∀ x0 rest, input = Tok.num x0 :: rest → inRange x0 →
      firstValue (State.start ux uy uz input) = x0 := by
    intro x0 rest e hx
    subst e
    exact firstValue_start_num ux uy uz x0 rest hx
  rcases test_start_log ux uy uz input with ⟨h, e⟩ | ⟨h, e⟩ | ⟨h, e⟩
  · have n1 : ¬ firstValue (State.start ux uy uz input) > 5 := by omega
    have n2 : ¬ firstValue (State.start ux uy uz input) = 5 := by omega
    refine ⟨?_, ?_, ?_, ?_, ?_, ?_, ?_, ?_, last⟩ <;>
      first
        | (intro h'; omega)
        | (rw [e]; simp [Event.isAssign, Event.isExtract, h, n1, n2])
  · have n1 : ¬ firstValue (State.start ux uy uz input) < 5 := by omega
    have n2 : ¬ firstValue (State.start ux uy uz input) = 5 := by omega
    have h' : 5 < firstValue (State.start ux uy uz input) := h
    refine ⟨?_, ?_, ?_, ?_, ?_, ?_, ?_, ?_, last⟩ <;>
      first
        | (intro h'; omega)
        | (rw [e]; simp [Event.isAssign, Event.isExtract, h', n1, n2])
  · have n1 : ¬ firstValue (State.start ux uy uz input) < 5 := by omega
    have n2 : ¬ firstValue (State.start ux uy uz input) > 5 := by omega
    refine ⟨?_, ?_, ?_, ?_, ?_, ?_, ?_, ?_, last⟩ <;>
      first
        | (intro h'; omega)
        | (rw [e]; simp [Event.isAssign, Event.isExtract, h])

/-- Instance of C6 on the input `3 10 1`: the first value 3 selects the
addition path, `13` is printed, and although 13 exceeds 5 no subtraction and no
third extraction happen. -/
theorem one_path_decided_by_first_value_witness :
    firstValue (State.start 0 0 0 [Tok.num 3, Tok.num 10, Tok.num 1]) = 3 ∧
    (main 0 0 0 [Tok.num 3, Tok.num 10, Tok.num 1]).2.log
      = [Event.extract Var.x, Event.extract Var.y, Event.addAssign, Event.insert "13"] ∧
    Event.subAssign ∉ (main 0 0 0 [Tok.num 3, Tok.num 10, Tok.num 1]).2.log ∧
    (main 0 0 0 [Tok.num 3, Tok.num 10, Tok.num 1]).2.cin.pending = [Tok.num 1] :=
  have a := one_path_decided_by_first_value 0 0 0 [Tok.num 3, Tok.num 10, Tok.num 1]
  ⟨a.2.2.2.2.2.2.2.2 3 [Tok.num 10, Tok.num 1] rfl (by decide),
    a.2.2.2.1 (by decide),
    fun h => absurd (a.2.1.mp h) (by decide),
    by decide⟩

/-! ## Overflow -/

/-- C7: with `int` as 32-bit two's complement, for in-range inputs `x0` and `w`
the program prints, when `x0 < 5`, the one `int` congruent to `x0 + w` modulo
`2^32`, and when `x0 > 5` the one `int` congruent to `x0 - w`; in both cases
both integers are consumed, the stream stays good and the exit status is 0, so
no pair of in-range inputs is rejected, clamped or reported. -/
theorem arithmetic_wraps (ux uy uz x0 w : Int) (rest : List Tok)
    (hx : inRange x0) (hw : inRange w) :
    (inRange (wrapInt (x0 + w)) ∧ wrapInt (x0 + w) ≡ x0 + w [ZMOD 4294967296]) ∧
    (inRange (wrapInt (x0 - w)) ∧ wrapInt (x0 - w) ≡ x0 - w [ZMOD 4294967296]) ∧
    (x0 < 5 →
      (main ux uy uz (Tok.num x0 :: Tok.num w :: rest)).2.cout
        = toString (wrapInt (x0 + w))) ∧
    (x0 > 5 →
      (main ux uy uz (Tok.num x0 :: Tok.num w :: rest)).2.cout
        = toString (wrapInt (x0 - w))) ∧
    (x0 ≠ 5 →
      (main ux uy uz (Tok.num x0 :: Tok.num w :: rest)).2.cin.pending = rest ∧
      (main ux uy uz (Tok.num x0 :: Tok.num w :: rest)).2.cin.failbit = false ∧
      (main ux uy uz (Tok.num x0 :: Tok.num w :: rest)).1 = 0) := by
  refine ⟨⟨wrapInt_inRange _, wrapInt_modEq _⟩, ⟨wrapInt_inRange _, wrapInt_modEq _⟩,
    ?_, ?_, ?_⟩
  · intro h
    simp only [main, test_start_lt ux uy uz x0 w rest hx hw h]
  · intro h
    simp only [main, test_start_gt ux uy uz x0 w rest hx hw h]
  · intro hne
    rcases lt_or_gt_of_ne hne with h | h
    · refine ⟨?_, ?_, rfl⟩ <;> simp only [main, test_start_lt ux uy uz x0 w rest hx hw h]
    · refine ⟨?_, ?_, rfl⟩ <;> simp only [main, test_start_gt ux uy uz x0 w rest hx hw h]

/-- Instances of C7 on the inputs `4 2147483647` and `6 -2147483648`, whose
exact sum and difference are out of range: the outputs are `-2147483645` and
`-2147483642`, not a bound of the range, and the stream stays good. -/
theorem arithmetic_wraps_witness :
    (inRange 4 ∧ inRange 2147483647 ∧ inRange 6 ∧ inRange (-2147483648)) ∧
    ((main 0 0 0 [Tok.num 4, Tok.num 2147483647]).2.cout = "-2147483645" ∧
      (main 0 0 0 [Tok.num 4, Tok.num 2147483647]).2.cin.failbit = false) ∧
    ((main 0 0 0 [Tok.num 6, Tok.num (-2147483648)]).2.cout = "-2147483642" ∧
      (main 0 0 0 [Tok.num 6, Tok.num (-2147483648)]).2.cin.failbit = false) :=
  have a := arithmetic_wraps 0 0 0 4 2147483647 [] (by decide) (by decide)
  have b := arithmetic_wraps 0 0 0 6 (-2147483648) [] (by decide) (by decide)
  ⟨by decide,
    ⟨a.2.2.1 (by decide), (a.2.2.2.2 (by decide)).2.1⟩,
    ⟨b.2.2.2.1 (by decide), (b.2.2.2.2 (by decide)).2.1⟩⟩

/-! ## Failed extraction -/

/-- C8: the program has no error path.  On every input the exit status is 0,
the output statement is the last statement executed and prints one `int`, and
whenever the value of `x` after `cin >> x` differs from 5 exactly one of the
two assignments is executed.  In particular, when an in-range `x0 ≠ 5` is
followed by nothing or by text that is not a number, the second extraction
fails (the stream records it in `failbit`), yet the assignment and the output
statement still run: on exhausted input with the leftover content of `y` or
`z`, on malformed input with the `0` that the extraction stores. -/
theorem no_error_path (ux uy uz : Int) :
    (∀ input,
      (main ux uy uz input).1 = 0 ∧
      inRange (main ux uy uz input).2.x ∧
      (main ux uy uz input).2.cout = toString (main ux uy uz input).2.x ∧
      (main ux uy uz input).2.log.getLast?
        = some (Event.insert (toString (main ux uy uz input).2.x)) ∧
      (firstValue (State.start ux uy uz input) ≠ 5 →
        (main ux uy uz input).2.log.countP Event.isAssign = 1)) ∧
    (∀ x0, inRange x0 → x0 < 5 →
      (main ux uy uz [Tok.num x0]).1 = 0 ∧
      (main ux uy uz [Tok.num x0]).2.cin.failbit = true ∧
      (main ux uy uz [Tok.num x0]).2.cout = toString (wrapInt (x0 + wrapInt uy)) ∧
      (main ux uy uz [Tok.num x0]).2.log
        = [Event.extract Var.x, Event.extract Var.y, Event.addAssign,
            Event.insert (toString (wrapInt (x0 + wrapInt uy)))] ∧
      ∀ rest,
        (main ux uy uz (Tok.num x0 :: Tok.bad :: rest)).1 = 0 ∧
        (main ux uy uz (Tok.num x0 :: Tok.bad :: rest)).2.cin.failbit = true ∧
        (main ux uy uz (Tok.num x0 :: Tok.bad :: rest)).2.cout = toString x0 ∧
        (main ux uy uz (Tok.num x0 :: Tok.bad :: rest)).2.log
          = [Event.extract Var.x, Event.extract Var.y, Event.addAssign,
              Event.insert (toString x0)]) ∧
    (∀ x0, inRange x0 → x0 > 5 →
      (main ux uy uz [Tok.num x0]).1 = 0 ∧
      (main ux uy uz [Tok.num x0]).2.cin.failbit = true ∧
      (main ux uy uz [Tok.num x0]).2.cout = toString (wrapInt (x0 - wrapInt uz)) ∧
      (main ux uy uz [Tok.num x0]).2.log
        = [Event.extract Var.x, Event.extract Var.z, Event.subAssign,
            Event.insert (toString (wrapInt (x0 - wrapInt uz)))] ∧
      ∀ rest,
        (main ux uy uz (Tok.num x0 :: Tok.bad :: rest)).1 = 0 ∧
        (main ux uy uz (Tok.num x0 :: Tok.bad :: rest)).2.cin.failbit = true ∧
        (main ux uy uz (Tok.num x0 :: Tok.bad :: rest)).2.cout = toString x0 ∧
        (main ux uy uz (Tok.num x0 :: Tok.bad :: rest)).2.log
          = [Event.extract Var.x, Event.extract Var.z, Event.subAssign,
              Event.insert (toString x0)]) := by
  refine ⟨?_, ?_, ?_⟩
  · intro input
    have hm : (main ux uy uz input).2 = test (State.start ux uy uz input) := rfl
    rw [hm]
    refine ⟨rfl, test_start_x_inRange ux uy uz input, test_start_cout ux uy uz input, ?_, ?_⟩
    · rcases test_start_log ux uy uz input with ⟨_, e⟩ | ⟨_, e⟩ | ⟨_, e⟩ <;>
        rw [e] <;> simp
    · intro hne
      rcases test_start_log ux uy uz input with ⟨_, e⟩ | ⟨_, e⟩ | ⟨h, _⟩
      · rw [e]
        simp [Event.isAssign]
      · rw [e]
        simp [Event.isAssign]
      · exact absurd h hne
  · intro x0 hx h
    refine ⟨rfl, ?_, ?_, ?_, ?_⟩
    · simp only [main, test_start_short_lt ux uy uz x0 hx h]
    · simp only [main, test_start_short_lt ux uy uz x0 hx h]
    · simp only [main, test_start_short_lt ux uy uz x0 hx h]
    · intro rest
      refine ⟨rfl, ?_, ?_, ?_⟩ <;>
        simp only [main, test_start_bad_lt ux uy uz x0 rest hx h]
  · intro x0 hx h
    refine ⟨rfl, ?_, ?_, ?_, ?_⟩
    · simp only [main, test_start_short_gt ux uy uz x0 hx h]
    · simp only [main, test_start_short_gt ux uy uz x0 hx h]
    · simp only [main, test_start_short_gt ux uy uz x0 hx h]
    · intro rest
      refine ⟨rfl, ?_, ?_, ?_⟩ <;>
        simp only [main, test_start_bad_gt ux uy uz x0 rest hx h]

/-- Instances of C8: on the input `3` alone, with `7` left in the storage of
`y`, the run executes both extractions, the addition and the output statement,
prints `10` and exits with status 0; on the input `10 abc` it prints `10`; on
empty input, with `2` left in the storage of `x` and `7` in that of `y`, it
prints `9`. -/
theorem no_error_path_witness :
    ((main 0 7 0 [Tok.num 3]).1 = 0 ∧
      (main 0 7 0 [Tok.num 3]).2.cout = "10" ∧
      (main 0 7 0 [Tok.num 3]).2.log
        = [Event.extract Var.x, Event.extract Var.y, Event.addAssign, Event.insert "10"]) ∧
    ((main 0 7 0 [Tok.num 10, Tok.bad]).1 = 0 ∧
      (main 0 7 0 [Tok.num 10, Tok.bad]).2.cout = "10") ∧
    ((main 2 7 0 []).1 = 0 ∧ (main 2 7 0 []).2.cout = "9") :=
  have a := (no_error_path 0 7 0).2.1 3 (by decide) (by decide)
  have b := ((no_error_path 0 7 0).2.2 10 (by decide) (by decide)).2.2.2.2 []
  have c := (no_error_path 2 7 0).1 []
  ⟨⟨a.1, a.2.2.1, a.2.2.2.1⟩, ⟨b.1, b.2.2.1⟩, ⟨c.1, c.2.2.1⟩⟩

/-! ## The output -/

/-- C9: on every run exactly one `cout << x` is executed, it is the last
statement of the run, so every extraction precedes it, and the whole of the
output is the decimal text of the final value of `x`, an `int`, with nothing
before or after it.  The statements executed are, in order, one of
`cin >> x; cin >> y; x += y; cout << x`, `cin >> x; cin >> z; x -= z; cout << x`
and `cin >> x; cout << x`. -/
theorem single_write_after_reads (ux uy uz : Int) (input : List Tok) :
    (main ux uy uz input).2.cout = toString (main ux uy uz input).2.x ∧
    inRange (main ux uy uz input).2.x ∧
    (main ux uy uz input).2.log.countP Event.isInsert = 1 ∧
    (∃ pre, (main ux uy uz input).2.log
        = pre ++ [Event.insert (toString (main ux uy uz input).2.x)] ∧
      ∀ e ∈ pre, e.isInsert = false) ∧
    ((main ux uy uz input).2.log
        = [Event.extract Var.x, Event.extract Var.y, Event.addAssign,
            Event.insert (toString (main ux uy uz input).2.x)] ∨
      (main ux uy uz input).2.log
        = [Event.extract Var.x, Event.extract Var.z, Event.subAssign,
            Event.insert (toString (main ux uy uz input).2.x)] ∨
      (main ux uy uz input).2.log
        = [Event.extract Var.x, Event.insert (toString (main ux uy uz input).2.x)]) := by
  have hm : (main ux uy uz input).2 = test (State.start ux uy uz input) := rfl
  rw [hm]
  refine ⟨test_start_cout ux uy uz input, test_start_x_inRange ux uy uz input, ?_, ?_, ?_⟩
  · rcases test_start_log ux uy uz input with ⟨_, e⟩ | ⟨_, e⟩ | ⟨_, e⟩ <;>
      rw [e] <;> simp [Event.isInsert]
  · rcases test_start_log ux uy uz input with ⟨_, e⟩ | ⟨_, e⟩ | ⟨_, e⟩
    · exact ⟨[Event.extract Var.x, Event.extract Var.y, Event.addAssign], e,
        by simp [Event.isInsert]⟩
    · exact ⟨[Event.extract Var.x, Event.extract Var.z, Event.subAssign], e,
        by simp [Event.isInsert]⟩
    · exact ⟨[Event.extract Var.x], e, by simp [Event.isInsert]⟩
  · rcases test_start_log ux uy uz input with ⟨_, e⟩ | ⟨_, e⟩ | ⟨_, e⟩
    · exact Or.inl e
    · exact Or.inr (Or.inl e)
    · exact Or.inr (Or.inr e)

end Rooks
